import Mathlib

/-!
Verification development for the Entropy TicTacToe repository.

The available sources are the React/TypeScript frontend
(`src/frontend`, `src/unnamed/part_002` … `part_005`) together with the
repository README.  Those files are translated directly below.  The
backend game engine (the FastAPI server orchestrating the board, the
probability engine, the Monty Hall mechanic and the turn clock) is not
among the available sources; every definition standing in for it is
marked `Modelled from the spec:` and follows the specification text.
-/

namespace Entropy

/-- Symbol categories of the hidden board: exactly 5 cells hold
`Majority` and 4 hold `Minority` (spec §3, README "Exactly 5 of one
symbol and 4 of the other exist"). -/
inductive TrueSymbol
  | Majority
  | Minority
deriving DecidableEq

/-- Cell status (spec §3): `Empty`, `PlacedHidden` or `Revealed`. -/
inductive CellStatus
  | Empty
  | PlacedHidden
  | Revealed
deriving DecidableEq

/-- One board cell: a fixed hidden symbol plus a status (spec §3). -/
structure Cell where
  trueSymbol : TrueSymbol
  status : CellStatus
deriving DecidableEq

/-- The 9-cell board (spec §3). -/
abbrev Board := Fin 9 → Cell

/-- The auto-placed center position (spec §4.2, `GameBoard.tsx` uses
literal position 4). -/
def center : Fin 9 := 4

/-- Number of cells whose hidden symbol is `Majority`. -/
def majorityCount (b : Board) : Nat :=
  (Finset.univ.filter fun i => (b i).trueSymbol = TrueSymbol.Majority).card

/-- Number of cells whose hidden symbol is `Minority`. -/
def minorityCount (b : Board) : Nat :=
  (Finset.univ.filter fun i => (b i).trueSymbol = TrueSymbol.Minority).card

/-- Number of revealed cells (spec §4.1 `revealedCount`). -/
def revealedCount (b : Board) : Nat :=
  (Finset.univ.filter fun i => (b i).status = CellStatus.Revealed).card

/-- Number of revealed cells whose symbol is `Majority`. -/
def revealedMajorityCount (b : Board) : Nat :=
  (Finset.univ.filter fun i =>
    (b i).status = CellStatus.Revealed ∧ (b i).trueSymbol = TrueSymbol.Majority).card

/-- Number of revealed cells whose symbol is `Minority`. -/
def revealedMinorityCount (b : Board) : Nat :=
  (Finset.univ.filter fun i =>
    (b i).status = CellStatus.Revealed ∧ (b i).trueSymbol = TrueSymbol.Minority).card

/-- Modelled from the spec: round `100 * a / n` to the nearest integer
percentage (spec §4.2 "round to nearest integer percentage"); the
backend implementation of the probability engine is not among the
available sources. -/
def pct (a n : Nat) : Nat := (200 * a + n) / (2 * n)

/-- Modelled from the spec: force a rounded percentage pair to sum to
exactly 100 "by adjusting the larger value by any rounding remainder"
(spec §4.2). -/
def forceSum100 (rA rB : Int) : Int × Int :=
  let rem := 100 - (rA + rB)
  if rB ≤ rA then (rA + rem, rB) else (rA, rB + rem)

/-- Modelled from the spec: the session's secret slot mapping applied
to a `(P(Majority), P(Minority))` pair before display (spec §4.2). -/
def applySlotMap (swap : Bool) (p : Int × Int) : Int × Int :=
  if swap then (p.2, p.1) else p

/-- Modelled from the spec: the hypergeometric percentage pair shared
by all currently unrevealed cells (spec §4.2), before slot mapping. -/
def hyperPair (b : Board) : Int × Int :=
  forceSum100
    (pct (5 - revealedMajorityCount b) (9 - revealedCount b))
    (pct (4 - revealedMinorityCount b) (9 - revealedCount b))

/-- Modelled from the spec: the probability entry the engine assigns to
cell `i` — a pair for `PlacedHidden` cells, cleared otherwise (spec §3
ProbabilityState, §4.2); the backend engine is not among the available
sources. -/
def cellProb (b : Board) (swap : Bool) (i : Fin 9) : Option (Int × Int) :=
  if (b i).status = CellStatus.PlacedHidden then
    some (applySlotMap swap (hyperPair b))
  else none

/-- Game phases (spec §4.5): `Placement → Reveal → GameOver`. -/
inductive Phase
  | Placement
  | Reveal
  | GameOver
deriving DecidableEq

/-- Error taxonomy (spec §7). -/
inductive GameError
  | InvalidMove
  | OutOfTurn
  | InvalidState
  | RoomFull
  | PlayerNotFound
  | RoomNotFound
deriving DecidableEq

/-- Monty Hall in-flight state (spec §3 MontyHallState). -/
structure MontyState where
  initiatorId : Fin 2
  originalPosition : Fin 9
  montyPosition : Fin 9
  montySymbolShown : TrueSymbol
deriving DecidableEq

/-- Modelled from the spec: the per-room session state owned by
GameSession (spec §3 Ownership); the backend GameSession is not among
the available sources. -/
structure Session where
  board : Board
  probs : Fin 9 → Option (Int × Int)
  phase : Phase
  currentTurn : Fin 2
  slotSwap : Bool
  timeRemaining : Nat
  revealTurnNumber : Nat
  montyState : Option MontyState
  winner : Option TrueSymbol
  playAgainVotes : Fin 2 → Bool

/-- Command surface exposed to the transport layer (spec §6). -/
inductive Command
  | place (playerId : Fin 2) (pos : Fin 9)
  | reveal (playerId : Fin 2) (pos : Fin 9)
  | montyChooseOriginal (playerId : Fin 2) (pos : Fin 9)
  | montyFinalChoice (playerId : Fin 2) (pos : Fin 9)
  | passOnTimeout
  | voteNewGame (playerId : Fin 2)
deriving DecidableEq

/-- The acting player named by a command, when there is one. -/
def actorOf : Command → Option (Fin 2)
  | .place p _ => some p
  | .reveal p _ => some p
  | .montyChooseOriginal p _ => some p
  | .montyFinalChoice p _ => some p
  | .passOnTimeout => none
  | .voteNewGame p => some p

/-- Commands that act on the board as part of a turn. -/
def isTurnAction : Command → Bool
  | .place _ _ => true
  | .reveal _ _ => true
  | .montyChooseOriginal _ _ => true
  | .montyFinalChoice _ _ => true
  | _ => false

/-- Commands whose successful completion ends the current turn. -/
def completesTurn : Command → Bool
  | .place _ _ => true
  | .reveal _ _ => true
  | .montyFinalChoice _ _ => true
  | .passOnTimeout => true
  | _ => false

/-- The opposing player slot. -/
def otherPlayer (p : Fin 2) : Fin 2 := 1 - p

/-- Fixed turn-clock duration, 30 time units (spec §4.4; RulesPopup
"Each player has 30 seconds per turn"). -/
def turnClockDuration : Nat := 30

/-- Update a single cell's status, leaving its hidden symbol intact. -/
def setStatus (b : Board) (i : Fin 9) (st : CellStatus) : Board :=
  fun j => if j = i then ⟨(b j).trueSymbol, st⟩ else b j

/-- Modelled from the spec: board creation from the uniformly chosen
5-element `Majority` subset (spec §3 Invariant); the backend session
constructor is not among the available sources. -/
def mkBoard (S : Finset (Fin 9)) : Board :=
  fun i => ⟨if i ∈ S then TrueSymbol.Majority else TrueSymbol.Minority, CellStatus.Empty⟩

/-- Modelled from the spec: recompute every probability entry from the
current board counts (spec §4.2, stateless in the Board). -/
def recompute (s : Session) : Session :=
  { s with probs := fun i => cellProb s.board s.slotSwap i }

/-- Modelled from the spec: fresh session state — center auto-placed at
the start of the placement phase (spec §4.2 Special case), clock reset,
player 0 to act. -/
def initSession (S : Finset (Fin 9)) (swap : Bool) : Session :=
  recompute
    { board := setStatus (mkBoard S) center CellStatus.PlacedHidden
      probs := fun _ => none
      phase := Phase.Placement
      currentTurn := 0
      slotSwap := swap
      timeRemaining := turnClockDuration
      revealTurnNumber := 0
      montyState := none
      winner := none
      playAgainVotes := fun _ => false }

/-- The 8 canonical winning lines, as listed in `GameBoard.tsx`
(`winPatterns`: 3 rows, 3 columns, 2 diagonals). -/
def winPatterns : List (Fin 9 × Fin 9 × Fin 9) :=
  [(0, 1, 2), (3, 4, 5), (6, 7, 8),
   (0, 3, 6), (1, 4, 7), (2, 5, 8),
   (0, 4, 8), (2, 4, 6)]

/-- Modelled from the spec: a line wins iff all three of its cells are
revealed and share the same true symbol (spec §4.1 Win detection). -/
def lineWinsB (b : Board) (l : Fin 9 × Fin 9 × Fin 9) : Bool :=
  decide ((b l.1).status = CellStatus.Revealed) &&
  decide ((b l.2.1).status = CellStatus.Revealed) &&
  decide ((b l.2.2).status = CellStatus.Revealed) &&
  decide ((b l.1).trueSymbol = (b l.2.1).trueSymbol) &&
  decide ((b l.2.1).trueSymbol = (b l.2.2).trueSymbol)

/-- Modelled from the spec: scan the 8 canonical lines for a winner
(spec §4.1). -/
def winnerOf (b : Board) : Option TrueSymbol :=
  (winPatterns.find? fun l => lineWinsB b l).map fun l => (b l.1).trueSymbol

/-- All 9 cells revealed. -/
def allRevealed (b : Board) : Bool :=
  decide (∀ i, (b i).status = CellStatus.Revealed)

/-- Modelled from the spec: draw iff all 9 cells are revealed and no
line wins (spec §4.1). -/
def isDraw (b : Board) : Bool := allRevealed b && !(winnerOf b).isSome

/-- Per-cell public view (spec §6: only `Empty`,
`PlacedHidden`(+probabilities) or `Revealed`(+symbol)). -/
inductive CellView
  | empty
  | placedHidden (pair : Option (Int × Int))
  | revealed (display : String)
deriving DecidableEq

/-- Modelled from the spec: map an internal symbol to its display label
through the session's secret symbol-to-label permutation (spec §3). -/
def displaySymbol (swap : Bool) (t : TrueSymbol) : String :=
  match t, swap with
  | TrueSymbol.Majority, false => "X"
  | TrueSymbol.Minority, false => "O"
  | TrueSymbol.Majority, true => "O"
  | TrueSymbol.Minority, true => "X"

/-- Modelled from the spec: public view of one cell; the center cell's
probability pair is withheld from all clients while the placement phase
lasts (spec §4.2 Special case). -/
def cellViewOf (s : Session) (i : Fin 9) : CellView :=
  match (s.board i).status with
  | CellStatus.Empty => CellView.empty
  | CellStatus.PlacedHidden =>
      if s.phase = Phase.Placement ∧ i = center then CellView.placedHidden none
      else CellView.placedHidden (s.probs i)
  | CellStatus.Revealed => CellView.revealed (displaySymbol s.slotSwap (s.board i).trueSymbol)

/-- Modelled from the spec: the public GameState view sent per action
(spec §6). -/
structure ClientView where
  cells : Fin 9 → CellView
  phase : Phase
  currentTurn : Fin 2
  timeRemaining : Nat
  winnerDisplay : Option String
  gameOver : Bool
  votes : Fin 2 → Bool
  playerId : Fin 2

/-- Modelled from the spec: build the view delivered to player `p`. -/
def viewFor (s : Session) (p : Fin 2) : ClientView :=
  { cells := fun i => cellViewOf s i
    phase := s.phase
    currentTurn := s.currentTurn
    timeRemaining := s.timeRemaining
    winnerDisplay := s.winner.map (displaySymbol s.slotSwap)
    gameOver := decide (s.phase = Phase.GameOver)
    votes := s.playAgainVotes
    playerId := p }

/-- Payloads the session hands to the transport layer (spec §6): the
public state view, the Monty Hall private hint, or an error report. -/
inductive Payload
  | stateView (v : ClientView)
  | montyHint (pos : Fin 9) (sym : TrueSymbol)
  | errorNote (e : GameError)

/-- One addressed payload. -/
structure Delivery where
  recipient : Fin 2
  payload : Payload

/-- Modelled from the spec: broadcast the fresh state view to both room
members (spec §6 broadcast). -/
def broadcastViews (s : Session) : List Delivery :=
  [⟨0, Payload.stateView (viewFor s 0)⟩, ⟨1, Payload.stateView (viewFor s 1)⟩]

/-- Modelled from the spec: session state after a successful placement;
after the 8th non-center placement the phase becomes `Reveal` and the
probabilities recompute fully (spec §4.5). -/
def placeSucc (s : Session) (pos : Fin 9) : Session :=
  let b := setStatus s.board pos CellStatus.PlacedHidden
  let done := decide (∀ i, ¬ (b i).status = CellStatus.Empty)
  recompute
    { s with
      board := b
      phase := if done then Phase.Reveal else Phase.Placement
      revealTurnNumber := if done then 1 else s.revealTurnNumber
      currentTurn := otherPlayer s.currentTurn
      timeRemaining := turnClockDuration }

/-- Modelled from the spec: session state after a completed public
reveal — win/draw check, Monty state cleared, turn advanced, clock
reset (spec §4.3 step 4, §4.5). -/
def finishReveal (s : Session) (pos : Fin 9) : Session :=
  let b := setStatus s.board pos CellStatus.Revealed
  let w := winnerOf b
  let over := w.isSome || allRevealed b
  recompute
    { s with
      board := b
      montyState := none
      phase := if over then Phase.GameOver else Phase.Reveal
      winner := w
      currentTurn := otherPlayer s.currentTurn
      revealTurnNumber := s.revealTurnNumber + 1
      timeRemaining := turnClockDuration
      playAgainVotes := fun _ => false }

/-- Modelled from the spec: session state after the mechanic's private
reveal is fixed — turn unchanged, clock restarted (spec §4.3 step 2,
§4.4 Cancellation). -/
def montyActivate (s : Session) (p : Fin 2) (pos m : Fin 9) : Session :=
  { s with
    montyState := some ⟨p, pos, m, (s.board m).trueSymbol⟩
    timeRemaining := turnClockDuration }

/-- Modelled from the spec: automatic pass on clock expiry — no board
mutation, turn advances, clock resets, in-flight Monty state discarded
(spec §4.4, §3 MontyHallState "never persists across turns"). -/
def timeoutSucc (s : Session) : Session :=
  { s with
    currentTurn := otherPlayer s.currentTurn
    timeRemaining := turnClockDuration
    montyState := none
    revealTurnNumber :=
      if s.phase = Phase.Reveal then s.revealTurnNumber + 1 else s.revealTurnNumber }

/-- Modelled from the spec: record a play-again vote (spec §4.5); the
replacement session object is created by the RoomRegistry, outside the
session. -/
def voteSucc (s : Session) (p : Fin 2) : Session :=
  { s with playAgainVotes := fun q => if q = p then true else s.playAgainVotes q }

/-- Unrevealed placed cells other than the nominated original — the
candidate pool for the Monty Hall private reveal (spec §4.3 step 2). -/
def eligibleMonty (b : Board) (orig : Fin 9) : List (Fin 9) :=
  (List.finRange 9).filter fun j =>
    decide ((b j).status = CellStatus.PlacedHidden) && decide (¬ j = orig)

/-- Modelled from the spec: the Monty Hall mechanic qualifies on every
second turn of the reveal phase, counted from phase start (spec §4.3);
reveal-phase turns are numbered from 1 here, so even numbers qualify. -/
def montyQualifies (s : Session) : Bool := s.revealTurnNumber % 2 == 0

/-- Modelled from the spec: the GameSession command handler (spec §4.5,
§6, §7); the backend implementation is not among the available sources.
The weighted 80/20 category draw of the Monty Hall reveal is abstracted
into the `rng` parameter, which selects among the eligible candidates. -/
def applyCommand (rng : Nat) (s : Session) (c : Command) :
    Except GameError (Session × List Delivery) :=
  match c with
  | .place p pos =>
      if ¬ s.phase = Phase.Placement then .error GameError.InvalidMove
      else if ¬ p = s.currentTurn then .error GameError.OutOfTurn
      else if pos = center then .error GameError.InvalidMove
      else if ¬ (s.board pos).status = CellStatus.Empty then .error GameError.InvalidMove
      else
        let s' := placeSucc s pos
        .ok (s', broadcastViews s')
  | .reveal p pos =>
      if ¬ s.phase = Phase.Reveal then .error GameError.InvalidMove
      else if ¬ p = s.currentTurn then .error GameError.OutOfTurn
      else if s.montyState.isSome then .error GameError.InvalidState
      else if montyQualifies s then .error GameError.InvalidState
      else if ¬ (s.board pos).status = CellStatus.PlacedHidden then .error GameError.InvalidMove
      else
        let s' := finishReveal s pos
        .ok (s', broadcastViews s')
  | .montyChooseOriginal p pos =>
      if ¬ s.phase = Phase.Reveal then .error GameError.InvalidMove
      else if ¬ p = s.currentTurn then .error GameError.OutOfTurn
      else if s.montyState.isSome then .error GameError.InvalidState
      else if ¬ montyQualifies s then .error GameError.InvalidState
      else if ¬ (s.board pos).status = CellStatus.PlacedHidden then .error GameError.InvalidMove
      else
        match (eligibleMonty s.board pos)[rng % (eligibleMonty s.board pos).length]? with
        | none => .error GameError.InvalidState
        | some m =>
            let s' := montyActivate s p pos m
            .ok (s', broadcastViews s' ++ [⟨p, Payload.montyHint m ((s.board m).trueSymbol)⟩])
  | .montyFinalChoice p pos =>
      if ¬ s.phase = Phase.Reveal then .error GameError.InvalidMove
      else if ¬ p = s.currentTurn then .error GameError.OutOfTurn
      else
        match s.montyState with
        | none => .error GameError.InvalidState
        | some _ =>
            if ¬ (s.board pos).status = CellStatus.PlacedHidden then .error GameError.InvalidMove
            else
              let s' := finishReveal s pos
              .ok (s', broadcastViews s')
  | .passOnTimeout =>
      if s.phase = Phase.GameOver then .error GameError.InvalidState
      else
        let s' := timeoutSucc s
        .ok (s', broadcastViews s')
  | .voteNewGame p =>
      if ¬ s.phase = Phase.GameOver then .error GameError.InvalidMove
      else
        let s' := voteSucc s p
        .ok (s', broadcastViews s')

/-- Modelled from the spec: the command boundary — a rejected command
leaves the session untouched and the error is reported to the
originating caller only (spec §7). -/
def handleCommand (rng : Nat) (s : Session) (caller : Fin 2) (c : Command) :
    Session × List Delivery :=
  match applyCommand rng s c with
  | .ok r => r
  | .error e => (s, [⟨caller, Payload.errorNote e⟩])

/-- Session states reachable from a fresh session through the command
handler. -/
inductive Reachable : Session → Prop
  | init (S : Finset (Fin 9)) (h : S.card = 5) (swap : Bool) :
      Reachable (initSession S swap)
  | step (rng : Nat) (s : Session) (c : Command) (s' : Session) (ds : List Delivery) :
      Reachable s → applyCommand rng s c = .ok (s', ds) → Reachable s'

/-! Frontend embedding, translated from `src/frontend/src/types/index.ts`
and the React components. -/

/-- The `monty_hall_state` field of the client `GameState` interface
(`src/frontend/src/types/index.ts`, lines 13–18). -/
structure TSMontyHallState where
  player_id : Nat
  original_position : Nat
  monty_position : Nat
  monty_symbol : String
deriving DecidableEq

/-- The client `GameState` interface
(`src/frontend/src/types/index.ts`). TypeScript `null` becomes `none`;
the probability tuples `[number, number] | [null, null]` become a pair
of options. -/
structure TSGameState where
  board : List (Option String)
  probabilities : List (Option Int × Option Int)
  phase : String
  current_turn : Nat
  revealed_cells : List Bool
  winner : Option String
  game_over : Bool
  player_id : Nat
  play_again_votes : Option (List Bool)
  turn_time_remaining : Option Nat
  turn_timeout : Option Nat
  monty_hall_state : Option TSMontyHallState
deriving DecidableEq

/-- The client `Player` interface (`src/frontend/src/types/index.ts`). -/
structure TSPlayer where
  id : Nat
  name : String
  is_ai : Option Bool
deriving DecidableEq

/-- The client `RoomInfo` interface (`src/frontend/src/types/index.ts`). -/
structure TSRoomInfo where
  code : String
  players : List TSPlayer
  waiting_for_player : Option Bool
  ai_mode : Option Bool
deriving DecidableEq

/-- `canInteract` from `GameBoard.tsx` (lines 24–38): interaction is
possible only with a full room, outside AI turns, on the local player's
turn and before game over. -/
def canInteract (roomInfo : Option TSRoomInfo) (gs : TSGameState) (isMyTurn : Bool) : Bool :=
  match roomInfo with
  | none => false
  | some ri =>
      if ri.waiting_for_player.getD false then false
      else if ri.ai_mode.getD false &&
          (((ri.players.find? fun p => p.id == gs.current_turn).bind fun p => p.is_ai).getD false)
        then false
      else isMyTurn && !gs.game_over

/-- The action a cell click sends to the server. -/
inductive ClickAction
  | placeAt (position : Nat)
  | revealAt (position : Nat)
deriving DecidableEq

/-- `handleCellClick` from `GameBoard.tsx` (lines 40–54): during
placement only empty non-center cells emit `place_piece`; during reveal
only placed, unrevealed cells emit `reveal_piece`. An out-of-range
index reads as TypeScript `undefined`, matching neither `null` nor
`'placed'`, hence the sentinel default. -/
def handleCellClick (roomInfo : Option TSRoomInfo) (gs : TSGameState)
    (isMyTurn : Bool) (position : Nat) : Option ClickAction :=
  if !(canInteract roomInfo gs isMyTurn) then none
  else if gs.phase == "placement" then
    if gs.board.getD position (some "undefined") == none && position != 4 then
      some (ClickAction.placeAt position)
    else none
  else if gs.phase == "reveal" then
    if gs.board.getD position (some "undefined") == some "placed" &&
        !(gs.revealed_cells.getD position false) then
      some (ClickAction.revealAt position)
    else none
  else none

/-- Monty Hall visual marks added by `getCellClass` in `GameBoard.tsx`
(lines 69–77). -/
inductive MontyCellMark
  | original
  | choice
deriving DecidableEq

/-- The Monty Hall branch of `getCellClass` (`GameBoard.tsx`, lines
69–77): marks appear only when a Monty state is present and it is the
local player's turn. -/
def getCellClassMontyMark (gs : TSGameState) (isMyTurn : Bool) (position : Nat) :
    Option MontyCellMark :=
  match gs.monty_hall_state with
  | some ms =>
      if isMyTurn then
        if position == ms.original_position then some MontyCellMark.original
        else if position == ms.monty_position then some MontyCellMark.choice
        else none
      else none
  | none => none

/-- The Monty Hall instruction block of `GameBoard.tsx` (lines
143–148): the privately shown symbol is read out of the game state and
rendered only when `isMyTurn` holds. Returns the symbol displayed, if
any. -/
def montyInstructions (gs : TSGameState) (isMyTurn : Bool) : Option String :=
  match gs.monty_hall_state with
  | some ms => if isMyTurn then some ms.monty_symbol else none
  | none => none

/-- The Monty Hall symbol carried inside a client `GameState` value. -/
def montySymbolOf (gs : TSGameState) : Option String :=
  gs.monty_hall_state.map fun ms => ms.monty_symbol

/-- What `PieceDisplay` renders for one cell
(`src/unnamed/part_003`). -/
inductive PieceRender
  | emptyPlus
  | revealedSym (s : String)
  | centerHidden
  | probability (p1 p2 : Option Int)
  | fallback
deriving DecidableEq

/-- `PieceDisplay` from `src/unnamed/part_003`: empty cells render a
`+`; revealed cells render their symbol; placed cells render the
probability pair — except the center cell during the placement phase
when the pair is null, which renders the hidden `? %` display. -/
def pieceDisplay (gs : TSGameState) (position : Nat) : PieceRender :=
  if gs.board.getD position (some "undefined") == none then PieceRender.emptyPlus
  else if gs.revealed_cells.getD position false then
    PieceRender.revealedSym ((gs.board.getD position (some "undefined")).getD "")
  else if gs.board.getD position (some "undefined") == some "placed" then
    let pr := gs.probabilities.getD position (none, none)
    if gs.phase == "placement" && position == 4 && (pr.1.isNone || pr.2.isNone) then
      PieceRender.centerHidden
    else PieceRender.probability pr.1 pr.2
  else PieceRender.fallback

/-- The winner check of `getGameStatus` in `GameStatusBar.tsx` (line
36): `gameState.winner === (gameState.player_id === 0 ? 'X' : 'O')`. -/
def isWinner (gs : TSGameState) : Bool :=
  match gs.winner with
  | some w => w == (if gs.player_id == 0 then "X" else "O")
  | none => false

/-- `getPlayerSymbol` from `GameStatusBar.tsx` (lines 63–66): player 0
is `X`, player 1 is `O`, in every session. -/
def getPlayerSymbol (playerId : Nat) : String :=
  if playerId == 0 then "X" else "O"

/-! Concrete instances used by the witness theorems. -/

/-- A concrete 5-element majority subset. -/
def S0 : Finset (Fin 9) := {0, 1, 2, 3, 4}

/-- A fresh session over `S0` with the identity slot mapping. -/
def sInitEx : Session := initSession S0 false

/-- Result of player 0 placing on cell 0 in the fresh session. -/
def placeStepEx : Except GameError (Session × List Delivery) :=
  applyCommand 0 sInitEx (Command.place 0 0)

/-- The session after the concrete placement step. -/
def sAfterEx : Session :=
  match placeStepEx with
  | .ok r => r.1
  | .error _ => sInitEx

/-- The deliveries of the concrete placement step. -/
def dsAfterEx : List Delivery :=
  match placeStepEx with
  | .ok r => r.2
  | .error _ => []

/-- A session already in the reveal phase with every cell placed. -/
def sRevealEx : Session :=
  recompute
    { board := fun i => ⟨(mkBoard S0 i).trueSymbol, CellStatus.PlacedHidden⟩
      probs := fun _ => none
      phase := Phase.Reveal
      currentTurn := 0
      slotSwap := false
      timeRemaining := turnClockDuration
      revealTurnNumber := 1
      montyState := none
      winner := none
      playAgainVotes := fun _ => false }

/-- A fully revealed board with no three-in-line match. -/
def bDrawEx : Board := fun i =>
  ⟨if ([0, 1, 5, 6, 7] : List Nat).contains i.val then TrueSymbol.Majority
    else TrueSymbol.Minority,
   CellStatus.Revealed⟩

/-- A client game state carrying an in-flight Monty Hall reveal,
as the `GameState` interface admits. -/
def gsMontyEx : TSGameState :=
  { board := [some "placed", some "placed", some "placed", some "placed", some "placed",
              some "placed", some "placed", some "placed", some "X"]
    probabilities := List.replicate 9 (some 57, some 43)
    phase := "reveal"
    current_turn := 0
    revealed_cells := [false, false, false, false, false, false, false, false, true]
    winner := none
    game_over := false
    player_id := 1
    play_again_votes := none
    turn_time_remaining := some 30
    turn_timeout := some 30
    monty_hall_state := some ⟨0, 0, 1, "X"⟩ }

/-- A finished game state, winner `X`, seen by player 0. -/
def gsWin0 : TSGameState :=
  { board := [some "X", some "X", some "X", some "O", some "O",
              some "placed", some "placed", some "placed", some "placed"]
    probabilities := List.replicate 9 (none, none)
    phase := "reveal"
    current_turn := 0
    revealed_cells := [true, true, true, true, true, false, false, false, false]
    winner := some "X"
    game_over := true
    player_id := 0
    play_again_votes := none
    turn_time_remaining := none
    turn_timeout := none
    monty_hall_state := none }

/-- The same finished game state as seen by player 1. -/
def gsWin1 : TSGameState := { gsWin0 with player_id := 1 }

/-! Helper lemmas. -/

/-- The adjusted percentage pair always sums to exactly 100. -/
theorem forceSum100_sum (a b : Int) :
    (forceSum100 a b).1 + (forceSum100 a b).2 = 100 := by
  unfold forceSum100
  split <;> (dsimp only; ring)

/-- The secret slot mapping permutes the pair, preserving its sum. -/
theorem applySlotMap_sum (sw : Bool) (p : Int × Int) :
    (applySlotMap sw p).1 + (applySlotMap sw p).2 = p.1 + p.2 := by
  cases sw
  · rfl
  · exact Int.add_comm p.2 p.1

/-- The engine assigns every `PlacedHidden` cell a pair summing to 100. -/
theorem cellProb_placedHidden {b : Board} {i : Fin 9} (sw : Bool)
    (h : (b i).status = CellStatus.PlacedHidden) :
    ∃ p q : Int, cellProb b sw i = some (p, q) ∧ p + q = 100 := by
  refine ⟨(applySlotMap sw (hyperPair b)).1, (applySlotMap sw (hyperPair b)).2, ?_, ?_⟩
  · simp [cellProb, h]
  · rw [applySlotMap_sum]
    exact forceSum100_sum _ _

/-- The engine clears the pair of every cell that is not `PlacedHidden`. -/
theorem cellProb_not_placed {b : Board} {i : Fin 9} (sw : Bool)
    (h : ¬ (b i).status = CellStatus.PlacedHidden) :
    cellProb b sw i = none := by
  simp [cellProb, h]

/-- `setStatus` never touches the hidden symbol. -/
theorem setStatus_trueSymbol (b : Board) (i : Fin 9) (st : CellStatus) (j : Fin 9) :
    (setStatus b i st j).trueSymbol = (b j).trueSymbol := by
  unfold setStatus
  split <;> rfl

/-- Boards agreeing on every hidden symbol have the same majority count. -/
theorem majorityCount_congr {b b' : Board}
    (h : ∀ i, (b' i).trueSymbol = (b i).trueSymbol) :
    majorityCount b' = majorityCount b := by
  unfold majorityCount
  congr 1
  ext i
  simp [h i]

/-- Boards agreeing on every hidden symbol have the same minority count. -/
theorem minorityCount_congr {b b' : Board}
    (h : ∀ i, (b' i).trueSymbol = (b i).trueSymbol) :
    minorityCount b' = minorityCount b := by
  unfold minorityCount
  congr 1
  ext i
  simp [h i]

/-- A board built from a 5-element subset holds exactly 5 `Majority`
cells. -/
theorem majorityCount_mkBoard {S : Finset (Fin 9)} (h : S.card = 5) :
    majorityCount (mkBoard S) = 5 := by
  unfold majorityCount
  have e : (Finset.univ.filter fun i : Fin 9 =>
      (mkBoard S i).trueSymbol = TrueSymbol.Majority) = S := by
    ext i
    by_cases hi : i ∈ S <;> simp [mkBoard, hi]
  rw [e, h]

/-- A board built from a 5-element subset holds exactly 4 `Minority`
cells. -/
theorem minorityCount_mkBoard {S : Finset (Fin 9)} (h : S.card = 5) :
    minorityCount (mkBoard S) = 4 := by
  unfold minorityCount
  have e : (Finset.univ.filter fun i : Fin 9 =>
      (mkBoard S i).trueSymbol = TrueSymbol.Minority) = Finset.univ \ S := by
    ext i
    by_cases hi : i ∈ S <;> simp [mkBoard, hi]
  rw [e, Finset.card_sdiff (Finset.subset_univ S), h]
  rfl

/-- Exhaustive shape of a successful command: every accepted command is
one of the six handlers, acting for the current player where a player
acts. -/
theorem apply_ok_shape {rng : Nat} {s : Session} {c : Command} {s' : Session}
    {ds : List Delivery} (h : applyCommand rng s c = .ok (s', ds)) :
    (∃ p pos, c = Command.place p pos ∧ p = s.currentTurn ∧
      s' = placeSucc s pos ∧ ds = broadcastViews s') ∨
    (∃ p pos, c = Command.reveal p pos ∧ p = s.currentTurn ∧
      s' = finishReveal s pos ∧ ds = broadcastViews s') ∨
    (∃ p pos m, c = Command.montyChooseOriginal p pos ∧ p = s.currentTurn ∧
      s' = montyActivate s p pos m ∧
      ds = broadcastViews s' ++ [⟨p, Payload.montyHint m ((s.board m).trueSymbol)⟩]) ∨
    (∃ p pos, c = Command.montyFinalChoice p pos ∧ p = s.currentTurn ∧
      s' = finishReveal s pos ∧ ds = broadcastViews s') ∨
    (c = Command.passOnTimeout ∧ s' = timeoutSucc s ∧ ds = broadcastViews s') ∨
    (∃ p, c = Command.voteNewGame p ∧ s' = voteSucc s p ∧ ds = broadcastViews s') := by
  cases c with
  | place p pos =>
      simp only [applyCommand] at h
      split_ifs at h with h1 h2 h3 h4
      injection h with h'
      injection h' with hA hB
      exact Or.inl ⟨p, pos, rfl, h2, hA.symm, by rw [← hA, ← hB]⟩
  | reveal p pos =>
      simp only [applyCommand] at h
      split_ifs at h with h1 h2 h3 h4 h5
      injection h with h'
      injection h' with hA hB
      exact Or.inr (Or.inl ⟨p, pos, rfl, h2, hA.symm, by rw [← hA, ← hB]⟩)
  | montyChooseOriginal p pos =>
      simp only [applyCommand] at h
      split_ifs at h with h1 h2 h3 h4 h5
      split at h
      · exact Except.noConfusion h
      · rename_i m hm
        injection h with h'
        injection h' with hA hB
        exact Or.inr (Or.inr (Or.inl ⟨p, pos, m, rfl, h2, hA.symm, by rw [← hA, ← hB]⟩))
  | montyFinalChoice p pos =>
      simp only [applyCommand] at h
      split_ifs at h with h1 h2 h3
      all_goals split at h
      all_goals try exact Except.noConfusion h
      injection h with h'
      injection h' with hA hB
      exact Or.inr (Or.inr (Or.inr (Or.inl ⟨p, pos, rfl, h2, hA.symm, by rw [← hA, ← hB]⟩)))
  | passOnTimeout =>
      simp only [applyCommand] at h
      split_ifs at h with h1
      injection h with h'
      injection h' with hA hB
      exact Or.inr (Or.inr (Or.inr (Or.inr (Or.inl ⟨rfl, hA.symm, by rw [← hA, ← hB]⟩))))
  | voteNewGame p =>
      simp only [applyCommand] at h
      split_ifs at h with h1
      injection h with h'
      injection h' with hA hB
      exact Or.inr (Or.inr (Or.inr (Or.inr (Or.inr ⟨p, rfl, hA.symm, by rw [← hA, ← hB]⟩))))

/-- Every reachable session's probability array coincides with the
engine's recomputation from the current board: the engine is stateless
in the Board. -/
theorem reachable_probs {s : Session} (h : Reachable s) :
    s.probs = fun i => cellProb s.board s.slotSwap i := by
  induction h with
  | init S hS swap => rfl
  | step rng s c s' ds hr heq ih =>
      rcases apply_ok_shape heq with
        ⟨p, pos, hc, hp, hs', hds⟩ | ⟨p, pos, hc, hp, hs', hds⟩ |
        ⟨p, pos, m, hc, hp, hs', hds⟩ | ⟨p, pos, hc, hp, hs', hds⟩ |
        ⟨hc, hs', hds⟩ | ⟨p, hc, hs', hds⟩
      · subst hs'; rfl
      · subst hs'; rfl
      · subst hs'; exact ih
      · subst hs'; rfl
      · subst hs'; exact ih
      · subst hs'; exact ih

/-- No accepted command changes any cell's hidden symbol. -/
theorem step_trueSymbol {rng : Nat} {s : Session} {c : Command} {s' : Session}
    {ds : List Delivery} (h : applyCommand rng s c = .ok (s', ds)) (i : Fin 9) :
    (s'.board i).trueSymbol = (s.board i).trueSymbol := by
  rcases apply_ok_shape h with
    ⟨p, pos, hc, hp, hs', hds⟩ | ⟨p, pos, hc, hp, hs', hds⟩ |
    ⟨p, pos, m, hc, hp, hs', hds⟩ | ⟨p, pos, hc, hp, hs', hds⟩ |
    ⟨hc, hs', hds⟩ | ⟨p, hc, hs', hds⟩
  · subst hs'; exact setStatus_trueSymbol s.board pos CellStatus.PlacedHidden i
  · subst hs'; exact setStatus_trueSymbol s.board pos CellStatus.Revealed i
  · subst hs'; rfl
  · subst hs'; exact setStatus_trueSymbol s.board pos CellStatus.Revealed i
  · subst hs'; rfl
  · subst hs'; rfl

/-- Every reachable session keeps exactly 5 `Majority` and 4 `Minority`
cells. -/
theorem reachable_counts {s : Session} (h : Reachable s) :
    majorityCount s.board = 5 ∧ minorityCount s.board = 4 := by
  induction h with
  | init S hS swap =>
      refine ⟨?_, ?_⟩
      · exact (majorityCount_congr fun i =>
          setStatus_trueSymbol (mkBoard S) center CellStatus.PlacedHidden i).trans
          (majorityCount_mkBoard hS)
      · exact (minorityCount_congr fun i =>
          setStatus_trueSymbol (mkBoard S) center CellStatus.PlacedHidden i).trans
          (minorityCount_mkBoard hS)
  | step rng s c s' ds hr heq ih =>
      exact ⟨(majorityCount_congr fun i => step_trueSymbol heq i).trans ih.1,
        (minorityCount_congr fun i => step_trueSymbol heq i).trans ih.2⟩

/-- Every accepted turn action is issued by the player whose turn it
is. -/
theorem step_actor {rng : Nat} {s : Session} {c : Command} {s' : Session}
    {ds : List Delivery} (h : applyCommand rng s c = .ok (s', ds))
    (ht : isTurnAction c = true) :
    actorOf c = some s.currentTurn := by
  rcases apply_ok_shape h with
    ⟨p, pos, hc, hp, hs', hds⟩ | ⟨p, pos, hc, hp, hs', hds⟩ |
    ⟨p, pos, m, hc, hp, hs', hds⟩ | ⟨p, pos, hc, hp, hs', hds⟩ |
    ⟨hc, hs', hds⟩ | ⟨p, hc, hs', hds⟩
  · subst hc; simp [actorOf, hp]
  · subst hc; simp [actorOf, hp]
  · subst hc; simp [actorOf, hp]
  · subst hc; simp [actorOf, hp]
  · subst hc; simp [isTurnAction] at ht
  · subst hc; simp [isTurnAction] at ht

/-- Every accepted turn-completing command hands the turn to the other
player. -/
theorem step_flip {rng : Nat} {s : Session} {c : Command} {s' : Session}
    {ds : List Delivery} (h : applyCommand rng s c = .ok (s', ds))
    (hc : completesTurn c = true) :
    s'.currentTurn = otherPlayer s.currentTurn := by
  rcases apply_ok_shape h with
    ⟨p, pos, hceq, hp, hs', hds⟩ | ⟨p, pos, hceq, hp, hs', hds⟩ |
    ⟨p, pos, m, hceq, hp, hs', hds⟩ | ⟨p, pos, hceq, hp, hs', hds⟩ |
    ⟨hceq, hs', hds⟩ | ⟨p, hceq, hs', hds⟩
  · subst hs'; rfl
  · subst hs'; rfl
  · subst hceq; simp [completesTurn] at hc
  · subst hs'; rfl
  · subst hs'; rfl
  · subst hceq; simp [completesTurn] at hc

/-- A successful Monty Hall nomination leaves the turn with the acting
player: the public reveal is still to come within the same turn. -/
theorem step_monty_keeps_turn {rng : Nat} {s : Session} {p : Fin 2} {pos : Fin 9}
    {s' : Session} {ds : List Delivery}
    (h : applyCommand rng s (Command.montyChooseOriginal p pos) = .ok (s', ds)) :
    s'.currentTurn = s.currentTurn := by
  rcases apply_ok_shape h with
    ⟨q, pos', hc, hp, hs', hds⟩ | ⟨q, pos', hc, hp, hs', hds⟩ |
    ⟨q, pos', m, hc, hp, hs', hds⟩ | ⟨q, pos', hc, hp, hs', hds⟩ |
    ⟨hc, hs', hds⟩ | ⟨q, hc, hs', hds⟩
  · exact absurd hc (by simp)
  · exact absurd hc (by simp)
  · subst hs'; rfl
  · exact absurd hc (by simp)
  · exact absurd hc (by simp)
  · exact absurd hc (by simp)

/-- On the board of two players, the other player is never the same
player. -/
theorem otherPlayer_ne (p : Fin 2) : ¬ otherPlayer p = p := by
  fin_cases p <;> decide

/-- Successful deliveries never carry an error payload. -/
theorem step_no_error_delivery {rng : Nat} {s : Session} {c : Command} {s' : Session}
    {ds : List Delivery} (h : applyCommand rng s c = .ok (s', ds)) :
    ∀ d ∈ ds, ∀ e, ¬ d.payload = Payload.errorNote e := by
  have hview : ∀ t : Session, ∀ d ∈ broadcastViews t, ∀ e, ¬ d.payload = Payload.errorNote e := by
    intro t d hd e
    rcases List.mem_pair.mp hd with rfl | rfl <;> simp
  rcases apply_ok_shape h with
    ⟨p, pos, hc, hp, hs', hds⟩ | ⟨p, pos, hc, hp, hs', hds⟩ |
    ⟨p, pos, m, hc, hp, hs', hds⟩ | ⟨p, pos, hc, hp, hs', hds⟩ |
    ⟨hc, hs', hds⟩ | ⟨p, hc, hs', hds⟩
  · subst hds; exact hview s'
  · subst hds; exact hview s'
  · subst hds
    intro d hd e
    rcases List.mem_append.mp hd with hd' | hd'
    · exact hview s' d hd' e
    · rcases List.mem_singleton.mp hd' with rfl
      simp
  · subst hds; exact hview s'
  · subst hds; exact hview s'
  · subst hds; exact hview s'

/-- A rejected command is bounced to the caller alone with the session
untouched. -/
theorem handle_error_shape (rng : Nat) (s : Session) (caller : Fin 2) (c : Command)
    (e : GameError) (h : applyCommand rng s c = .error e) :
    handleCommand rng s caller c = (s, [⟨caller, Payload.errorNote e⟩]) := by
  unfold handleCommand
  rw [h]

/-- Clock expiry outside `GameOver` always succeeds as an automatic
pass. -/
theorem timeout_ok {rng : Nat} {s : Session} (h : ¬ s.phase = Phase.GameOver) :
    applyCommand rng s Command.passOnTimeout =
      .ok (timeoutSucc s, broadcastViews (timeoutSucc s)) := by
  simp only [applyCommand, if_neg h]

/-- Placing on the center cell is rejected in every session state. -/
theorem place_center_error (rng : Nat) (s : Session) (p : Fin 2) :
    ∃ e, applyCommand rng s (Command.place p center) = .error e := by
  simp only [applyCommand]
  split_ifs with h1 h2
  all_goals exact ⟨_, rfl⟩

/-- The frontend click handler never emits a placement on the center
cell. -/
theorem handleCellClick_no_center_place (ri : Option TSRoomInfo) (gs : TSGameState)
    (t : Bool) (position : Nat) :
    ¬ handleCellClick ri gs t position = some (ClickAction.placeAt 4) := by
  intro h
  unfold handleCellClick at h
  split_ifs at h with h1 h2 h3 h4 h5
  all_goals simp at h
  subst h
  simp at h3

/-- Characterisation of the Boolean line-win checker. -/
theorem lineWinsB_iff (b : Board) (l : Fin 9 × Fin 9 × Fin 9) :
    lineWinsB b l = true ↔
      ((b l.1).status = CellStatus.Revealed ∧ (b l.2.1).status = CellStatus.Revealed ∧
       (b l.2.2).status = CellStatus.Revealed ∧
       (b l.1).trueSymbol = (b l.2.1).trueSymbol ∧
       (b l.2.1).trueSymbol = (b l.2.2).trueSymbol) := by
  simp only [lineWinsB, Bool.and_eq_true, decide_eq_true_eq]
  tauto

/-- A winner is found exactly when some canonical line wins. -/
theorem winnerOf_isSome_iff (b : Board) :
    (winnerOf b).isSome = true ↔ ∃ l ∈ winPatterns, lineWinsB b l = true := by
  unfold winnerOf
  rw [Option.isSome_map']
  simp [List.find?_isSome]

/-- The draw checker holds exactly on fully revealed winnerless
boards. -/
theorem isDraw_iff (b : Board) :
    isDraw b = true ↔ ((∀ i, (b i).status = CellStatus.Revealed) ∧ winnerOf b = none) := by
  cases hw : winnerOf b <;> simp [isDraw, allRevealed, hw]

/-- C1: at every reachable point of a session, every `PlacedHidden`
cell's probability pair is a pair of integers summing to exactly 100,
and every `Empty` cell's pair is cleared (both components null). -/
theorem claim_C1 {s : Session} (hs : Reachable s) (i : Fin 9) :
    ((s.board i).status = CellStatus.PlacedHidden →
      ∃ p q : Int, s.probs i = some (p, q) ∧ p + q = 100) ∧
    ((s.board i).status = CellStatus.Empty → s.probs i = none) := by
  have hp := reachable_probs hs
  constructor
  · intro h
    rw [hp]
    exact cellProb_placedHidden s.slotSwap h
  · intro h
    rw [hp]
    exact cellProb_not_placed s.slotSwap (by rw [h]; simp)

/-- Witness for C1 at the fresh session's auto-placed center cell. -/
theorem claim_C1_witness :
    ∃ p q : Int, sInitEx.probs center = some (p, q) ∧ p + q = 100 :=
  (claim_C1 (Reachable.init S0 (by decide) false) center).1 (by decide)

/-- C2: at session creation exactly 5 cells hold `Majority` and 4 hold
`Minority`; no accepted command alters any cell's hidden symbol; hence
the counts hold in every reachable state. -/
theorem claim_C2 :
    (∀ (S : Finset (Fin 9)) (swap : Bool), S.card = 5 →
      majorityCount (initSession S swap).board = 5 ∧
      minorityCount (initSession S swap).board = 4) ∧
    (∀ (rng : Nat) (s : Session) (c : Command) (s' : Session) (ds : List Delivery),
      applyCommand rng s c = .ok (s', ds) →
      ∀ i, (s'.board i).trueSymbol = (s.board i).trueSymbol) ∧
    (∀ s : Session, Reachable s →
      majorityCount s.board = 5 ∧ minorityCount s.board = 4) := by
  refine ⟨?_, ?_, ?_⟩
  · intro S swap hS
    exact reachable_counts (Reachable.init S hS swap)
  · intro rng s c s' ds h i
    exact step_trueSymbol h i
  · intro s hs
    exact reachable_counts hs

/-- Witness for C2 at the fresh session over `S0`. -/
theorem claim_C2_witness :
    majorityCount sInitEx.board = 5 ∧ minorityCount sInitEx.board = 4 :=
  claim_C2.1 S0 false (by decide)

/-- C3 counterexample: the privately shown Monty Hall symbol is a field
of the client `GameState` payload itself (`monty_hall_state` in
`types/index.ts`), and `GameBoard` reads it out of the game state for
display — so the shown symbol does enter the game state, refuting the
claim at the concrete state `gsMontyEx`. -/
theorem claim_C3_counterexample :
    montySymbolOf gsMontyEx = some "X" ∧
    montyInstructions gsMontyEx true = some "X" ∧
    ¬ (∀ gs : TSGameState, montySymbolOf gs = none) :=
  ⟨rfl, rfl, fun h => Option.noConfusion (h gsMontyEx)⟩

/-- C3 (amended): the client surfaces the Monty position and symbol
only to the acting side — with `isMyTurn` false, neither the board
marks nor the instruction block show them; whenever the symbol is
displayed, it is the local player's turn. -/
theorem claim_C3 (gs : TSGameState) (position : Nat) :
    montyInstructions gs false = none ∧
    getCellClassMontyMark gs false position = none ∧
    (∀ t : Bool, (montyInstructions gs t).isSome = true →
      t = true ∧ gs.monty_hall_state.isSome = true) := by
  refine ⟨?_, ?_, ?_⟩
  · unfold montyInstructions
    cases gs.monty_hall_state <;> simp
  · unfold getCellClassMontyMark
    cases gs.monty_hall_state <;> simp
  · intro t h
    unfold montyInstructions at h
    cases hm : gs.monty_hall_state with
    | none => rw [hm] at h; simp at h
    | some ms =>
        rw [hm] at h
        cases t
        · simp at h
        · exact ⟨rfl, rfl⟩

/-- Witness for the amended C3 at the concrete Monty state. -/
theorem claim_C3_witness :
    true = true ∧ gsMontyEx.monty_hall_state.isSome = true :=
  (claim_C3 gsMontyEx 0).2.2 true rfl

/-- C4: over the 8 canonical lines, a winner exists exactly when some
line has all three cells revealed sharing one true symbol, and the
draw checker holds exactly when all 9 cells are revealed with no
winner. -/
theorem claim_C4 (b : Board) :
    ((winnerOf b).isSome = true ↔ ∃ l ∈ winPatterns,
      ((b l.1).status = CellStatus.Revealed ∧ (b l.2.1).status = CellStatus.Revealed ∧
       (b l.2.2).status = CellStatus.Revealed ∧
       (b l.1).trueSymbol = (b l.2.1).trueSymbol ∧
       (b l.2.1).trueSymbol = (b l.2.2).trueSymbol)) ∧
    (isDraw b = true ↔ ((∀ i, (b i).status = CellStatus.Revealed) ∧ winnerOf b = none)) := by
  constructor
  · rw [winnerOf_isSome_iff]
    exact exists_congr fun l => and_congr_right fun _ => lineWinsB_iff b l
  · exact isDraw_iff b

/-- Witness for C4: the concrete fully revealed board with no
three-in-line match is a draw. -/
theorem claim_C4_witness : isDraw bDrawEx = true :=
  (claim_C4 bDrawEx).2.mpr ⟨by decide, by decide⟩

/-- C5: the center cell is auto-placed (status `PlacedHidden`, symbol
from the same pool) at the start of the placement phase; placement on
the center is rejected both server-side and by the frontend click
handler; and the center's probability pair is withheld from every
client view during placement and disclosed afterwards. -/
theorem claim_C5 :
    (∀ (S : Finset (Fin 9)) (swap : Bool),
      ((initSession S swap).board center).status = CellStatus.PlacedHidden ∧
      (initSession S swap).phase = Phase.Placement ∧
      ((initSession S swap).board center).trueSymbol = (mkBoard S center).trueSymbol) ∧
    (∀ (rng : Nat) (s : Session) (p : Fin 2),
      ∃ e, applyCommand rng s (Command.place p center) = .error e) ∧
    (∀ (ri : Option TSRoomInfo) (gs : TSGameState) (t : Bool) (position : Nat),
      ¬ handleCellClick ri gs t position = some (ClickAction.placeAt 4)) ∧
    (∀ (s : Session) (q : Fin 2), s.phase = Phase.Placement →
      (s.board center).status = CellStatus.PlacedHidden →
      (viewFor s q).cells center = CellView.placedHidden none) ∧
    (∀ (s : Session) (q : Fin 2), s.phase = Phase.Reveal →
      (s.board center).status = CellStatus.PlacedHidden →
      (viewFor s q).cells center = CellView.placedHidden (s.probs center)) := by
  refine ⟨?_, ?_, ?_, ?_, ?_⟩
  · intro S swap
    refine ⟨?_, rfl, ?_⟩
    · show (setStatus (mkBoard S) center CellStatus.PlacedHidden center).status = _
      unfold setStatus
      simp
    · exact setStatus_trueSymbol (mkBoard S) center CellStatus.PlacedHidden center
  · exact place_center_error
  · exact handleCellClick_no_center_place
  · intro s q hph hst
    show cellViewOf s center = _
    unfold cellViewOf
    rw [hst]
    simp [hph]
  · intro s q hph hst
    show cellViewOf s center = _
    unfold cellViewOf
    rw [hst, hph]
    simp

/-- Witness for C5: withheld center pair in the fresh session, disclosed
center pair in a reveal-phase session. -/
theorem claim_C5_witness :
    (viewFor sInitEx 0).cells center = CellView.placedHidden none ∧
    (viewFor sRevealEx 1).cells center = CellView.placedHidden (sRevealEx.probs center) :=
  ⟨claim_C5.2.2.2.1 sInitEx 0 rfl rfl,
   claim_C5.2.2.2.2 sRevealEx 1 rfl rfl⟩

/-- C6: the probability engine is idempotent — recomputing twice with
the board unchanged yields the identical session, and in particular the
same pair for every cell. -/
theorem claim_C6 (s : Session) :
    recompute (recompute s) = recompute s ∧
    ∀ i, (recompute (recompute s)).probs i = (recompute s).probs i :=
  ⟨rfl, fun _ => rfl⟩

/-- Witness for C6 at the fresh session. -/
theorem claim_C6_witness :
    recompute (recompute sInitEx) = recompute sInitEx :=
  (claim_C6 sInitEx).1

/-- C7: turn ownership strictly alternates — accepted turn actions come
only from the player whose turn it is, every completed action (place,
reveal, Monty final choice, timeout pass) hands the turn to the other
player with no extra-turn rule, the Monty nomination alone keeps the
turn, and two consecutive completed turn actions are never issued by
the same player. -/
theorem claim_C7 :
    (∀ (rng : Nat) (s : Session) (c : Command) (s' : Session) (ds : List Delivery),
      applyCommand rng s c = .ok (s', ds) → isTurnAction c = true →
      actorOf c = some s.currentTurn) ∧
    (∀ (rng : Nat) (s : Session) (c : Command) (s' : Session) (ds : List Delivery),
      applyCommand rng s c = .ok (s', ds) → completesTurn c = true →
      s'.currentTurn = otherPlayer s.currentTurn) ∧
    (∀ (rng : Nat) (s : Session) (p : Fin 2) (pos : Fin 9) (s' : Session)
       (ds : List Delivery),
      applyCommand rng s (Command.montyChooseOriginal p pos) = .ok (s', ds) →
      s'.currentTurn = s.currentTurn) ∧
    (∀ (rngA rngB : Nat) (s sA sB : Session) (cA cB : Command)
       (dsA dsB : List Delivery) (pA pB : Fin 2),
      applyCommand rngA s cA = .ok (sA, dsA) →
      applyCommand rngB sA cB = .ok (sB, dsB) →
      completesTurn cA = true → isTurnAction cA = true → isTurnAction cB = true →
      actorOf cA = some pA → actorOf cB = some pB → ¬ pA = pB) := by
  refine ⟨?_, ?_, ?_, ?_⟩
  · intro rng s c s' ds h ht
    exact step_actor h ht
  · intro rng s c s' ds h hc
    exact step_flip h hc
  · intro rng s p pos s' ds h
    exact step_monty_keeps_turn h
  · intro rngA rngB s sA sB cA cB dsA dsB pA pB hA hB hcomp htA htB haA haB
    have eA := step_actor hA htA
    have eB := step_actor hB htB
    have fA := step_flip hA hcomp
    rw [haA] at eA
    rw [haB] at eB
    injection eA with eA'
    injection eB with eB'
    rw [eA', eB', fA]
    exact fun hcon => otherPlayer_ne s.currentTurn hcon.symm

/-- Witness for C7: the concrete placement step hands the turn to
player 1. -/
theorem claim_C7_witness :
    sAfterEx.currentTurn = otherPlayer sInitEx.currentTurn :=
  claim_C7.2.1 0 sInitEx (Command.place 0 0) sAfterEx dsAfterEx rfl rfl

/-- C8: the turn clock runs 30 time units per active turn; expiry is a
normal successful transition that executes no placement or reveal,
changes no board cell and no probability entry, hands the turn to the
other player, and resets the clock. -/
theorem claim_C8 :
    turnClockDuration = 30 ∧
    (∀ (rng : Nat) (s : Session), ¬ s.phase = Phase.GameOver →
      ∃ ds, applyCommand rng s Command.passOnTimeout = .ok (timeoutSucc s, ds) ∧
        (timeoutSucc s).board = s.board ∧
        (timeoutSucc s).probs = s.probs ∧
        (timeoutSucc s).currentTurn = otherPlayer s.currentTurn ∧
        (timeoutSucc s).timeRemaining = turnClockDuration ∧
        (timeoutSucc s).phase = s.phase) := by
  refine ⟨rfl, ?_⟩
  intro rng s h
  exact ⟨broadcastViews (timeoutSucc s), timeout_ok h, rfl, rfl, rfl, rfl, rfl⟩

/-- Witness for C8 at the fresh session. -/
theorem claim_C8_witness :
    ∃ ds, applyCommand 0 sInitEx Command.passOnTimeout = .ok (timeoutSucc sInitEx, ds) ∧
      (timeoutSucc sInitEx).board = sInitEx.board ∧
      (timeoutSucc sInitEx).probs = sInitEx.probs ∧
      (timeoutSucc sInitEx).currentTurn = otherPlayer sInitEx.currentTurn ∧
      (timeoutSucc sInitEx).timeRemaining = turnClockDuration ∧
      (timeoutSucc sInitEx).phase = sInitEx.phase :=
  claim_C8.2 0 sInitEx (by decide)

/-- C9: every rejected command leaves the session state unchanged and
is reported to the originating caller alone, and no successful command
ever carries an error payload in its deliveries — errors are never
broadcast and never fatal to the room. -/
theorem claim_C9 :
    (∀ (rng : Nat) (s : Session) (caller : Fin 2) (c : Command) (e : GameError),
      applyCommand rng s c = .error e →
      handleCommand rng s caller c = (s, [⟨caller, Payload.errorNote e⟩])) ∧
    (∀ (rng : Nat) (s : Session) (c : Command) (s' : Session) (ds : List Delivery),
      applyCommand rng s c = .ok (s', ds) →
      ∀ d ∈ ds, ∀ e, ¬ d.payload = Payload.errorNote e) :=
  ⟨fun rng s caller c e h => handle_error_shape rng s caller c e h,
   fun _ _ _ _ _ h => step_no_error_delivery h⟩

/-- Witness for C9: an out-of-turn placement bounces to the caller with
the session unchanged. -/
theorem claim_C9_witness :
    handleCommand 0 sInitEx 1 (Command.place 1 0) =
      (sInitEx, [⟨1, Payload.errorNote GameError.OutOfTurn⟩]) :=
  claim_C9.1 0 sInitEx 1 (Command.place 1 0) GameError.OutOfTurn rfl

/-- C10: the client decides the local result from the fixed mapping
player 0 ↦ X, player 1 ↦ O — a function of the winner string and the
local slot alone, identical in every session — and for winner `X` or
`O` exactly one of the two players is declared the local winner. -/
theorem claim_C10 :
    (∀ gs gs' : TSGameState, gs.winner = gs'.winner → gs.player_id = gs'.player_id →
      isWinner gs = isWinner gs') ∧
    (∀ (gs : TSGameState) (w : String), gs.winner = some w →
      isWinner gs = (w == getPlayerSymbol gs.player_id)) ∧
    (∀ w : String, w = "X" ∨ w = "O" →
      ∀ gsA gsB : TSGameState, gsA.winner = some w → gsB.winner = some w →
      gsA.player_id = 0 → gsB.player_id = 1 →
      ((isWinner gsA = true ∧ isWinner gsB = false) ∨
       (isWinner gsA = false ∧ isWinner gsB = true))) := by
  refine ⟨?_, ?_, ?_⟩
  · intro gs gs' hw hp
    unfold isWinner
    rw [hw, hp]
  · intro gs w hw
    unfold isWinner getPlayerSymbol
    rw [hw]
  · intro w hw gsA gsB hwA hwB hpA hpB
    have eA : isWinner gsA = (w == "X") := by
      unfold isWinner
      rw [hwA, hpA]
      rfl
    have eB : isWinner gsB = (w == "O") := by
      unfold isWinner
      rw [hwB, hpB]
      rfl
    rcases hw with rfl | rfl
    · left
      rw [eA, eB]
      exact ⟨rfl, rfl⟩
    · right
      rw [eA, eB]
      exact ⟨rfl, rfl⟩

/-- Witness for C10 at the concrete finished game states. -/
theorem claim_C10_witness :
    (isWinner gsWin0 = true ∧ isWinner gsWin1 = false) ∨
    (isWinner gsWin0 = false ∧ isWinner gsWin1 = true) :=
  claim_C10.2.2 "X" (Or.inl rfl) gsWin0 gsWin1 rfl rfl rfl rfl

end Entropy
